import Mathlib

/-!
# A shallow embedding of the `confstruct` configuration loader

This file embeds the type-coercion and validation engine of the
`confstruct` Python package: the custom validated types (`ListOf`,
`SecretStr` in `types/`), the encode/decode hooks (`hooks/enc.py`,
`hooks/dec.py`), the JSON and environment providers, and the loader
(`loader.py`).  Python values are modelled by the inductive `PyValue`,
annotations by `PyAnnot`, and raised exceptions by `Except PyErr`.

Scope of the modelled universe: floating-point numbers, `bytes`,
dictionaries-as-values and tuples-as-values are outside the universe
(no claim below touches them); the corresponding classes still appear
in `PyClass` so that class-membership tests mirror the source.
String methods (`lower`, `islower`, `strip`, …) are modelled over
ASCII, which covers every input considered here.
-/

/-- The concrete Python classes that appear in the package. -/
inductive PyClass
  | intC | strC | floatC | boolC | bytesC | listC | dictC | tupleC
  | listOfC | secretStrC | noneC | typeC
  deriving DecidableEq, Repr

/-- `cls.__name__`. -/
def PyClass.clsName : PyClass → String
  | .intC => "int"
  | .strC => "str"
  | .floatC => "float"
  | .boolC => "bool"
  | .bytesC => "bytes"
  | .listC => "list"
  | .dictC => "dict"
  | .tupleC => "tuple"
  | .listOfC => "ListOf"
  | .secretStrC => "SecretStr"
  | .noneC => "NoneType"
  | .typeC => "type"

/-- A runtime type annotation: a plain class, a parameterized generic
(`list[int]`), a union, or a string used as an annotation (a perfectly
legal Python annotation object with no generic origin). -/
inductive PyAnnot
  | cls (c : PyClass)
  | generic (origin : PyClass) (args : List PyAnnot)
  | union (args : List PyAnnot)
  | strAnnot (s : String)

/-- The universe of Python runtime values the engine manipulates.
`pylist sub elems` is a Python list; `sub = true` means the object is an
instance of the `list` subclass `ListOf`.  `secret v` is a `SecretStr`
whose `_value` slot holds `v`.  `classV c` is a class object used as a
value (its type is `type`). -/
inductive PyValue
  | noneV
  | bool (b : Bool)
  | int (i : Int)
  | str (s : String)
  | pylist (sub : Bool) (elems : List PyValue)
  | secret (v : String)
  | classV (c : PyClass)

/-- Python exceptions relevant to the engine. -/
inductive PyErr
  | typeError (msg : String)
  | valueError (msg : String)
  | attributeError (msg : String)
  | validationError (msg : String)
  deriving DecidableEq, Repr

/-- `isinstance(e, (TypeError, ValueError))`: the pair of exception
classes caught throughout the hooks. -/
def PyErr.isTVE : PyErr → Bool
  | .typeError _ => true
  | .valueError _ => true
  | _ => false

/-- `type(v)`. -/
def PyValue.typeOf : PyValue → PyClass
  | .noneV => .noneC
  | .bool _ => .boolC
  | .int _ => .intC
  | .str _ => .strC
  | .pylist false _ => .listC
  | .pylist true _ => .listOfC
  | .secret _ => .secretStrC
  | .classV _ => .typeC

/-- `issubclass(a, b)`: reflexive, with `ListOf <: list` and
`bool <: int` as in Python. -/
def PyClass.subclassOf (a b : PyClass) : Bool :=
  a == b || (a == .listOfC && b == .listC) || (a == .boolC && b == .intC)

/-- `isinstance(v, c)` for a concrete class `c`. -/
def pyIsInstance (v : PyValue) (c : PyClass) : Bool :=
  v.typeOf.subclassOf c

/-! ## String helpers (ASCII model of the Python `str` methods) -/

/-- `str.lower()`. -/
def pyLower (s : String) : String := String.mk (s.data.map Char.toLower)

/-- `str.upper()`. -/
def pyUpper (s : String) : String := String.mk (s.data.map Char.toUpper)

/-- `str.islower()`: at least one cased character and no cased character
uppercase (ASCII: cased = alphabetic). -/
def pyIslower (s : String) : Bool :=
  s.data.any Char.isAlpha && s.data.all (fun c => !c.isUpper)

/-- `str.strip()` on a character list. -/
def trimChars (cs : List Char) : List Char :=
  ((cs.dropWhile Char.isWhitespace).reverse.dropWhile Char.isWhitespace).reverse

/-- `str.split(",")` on a character list; `"".split(",") == [""]`. -/
def splitOnComma : List Char → List (List Char)
  | [] => [[]]
  | c :: rest =>
      if c = ',' then [] :: splitOnComma rest
      else
        match splitOnComma rest with
        | [] => [[c]]
        | p :: ps => (c :: p) :: ps

/-- Trimmed, non-empty comma-separated pieces of a string:
`[item.strip() for item in value.split(",") if item.strip()]`. -/
def splitCommaTrim (s : String) : List String :=
  (((splitOnComma s.data).map trimChars).filter (· ≠ [])).map String.mk

/-- The decimal digit character for `d < 10`. -/
def digitCh (d : Nat) : Char := Char.ofNat (48 + d)

/-- Decimal digit characters of `n`, most significant first. -/
def natChars (n : Nat) : List Char :=
  if n = 0 then ['0'] else ((Nat.digits 10 n).map digitCh).reverse

/-- Decimal representation of an integer, as Python's `repr`/`str` and
`json.dumps` print it. -/
def intChars (i : Int) : List Char :=
  if i < 0 then '-' :: natChars i.natAbs else natChars i.toNat

/-- `str(i)` for an integer. -/
def intRepr (i : Int) : String := String.mk (intChars i)

/-- Numeric value of a decimal digit character. -/
def chDigitVal (c : Char) : Nat := c.toNat - 48

/-- Value of a big-endian list of decimal digit characters. -/
def digitsVal (cs : List Char) : Nat :=
  Nat.ofDigits 10 ((cs.map chDigitVal).reverse)

/-- Split a character list into its leading run of decimal digits and
the remainder. -/
def splitDigits : List Char → List Char × List Char
  | [] => ([], [])
  | c :: cs =>
      if c.isDigit then
        let (a, b) := splitDigits cs
        (c :: a, b)
      else ([], c :: cs)

/-- Parse a leading run of decimal digits; fails when there is none. -/
def parseDigits (cs : List Char) : Option (Nat × List Char) :=
  if (splitDigits cs).1 = [] then none
  else some (digitsVal (splitDigits cs).1, (splitDigits cs).2)

/-- Parse an optionally-signed decimal integer literal. -/
def parseSignedInt (cs : List Char) : Option (Int × List Char) :=
  if cs.head? = some '-' then
    (parseDigits cs.tail).map (fun p => (-(p.1 : Int), p.2))
  else
    (parseDigits cs).map (fun p => ((p.1 : Int), p.2))

/-- `int(s)` on a string: strip, optional sign, decimal digits. -/
def pyIntOfString (s : String) : Option Int :=
  match trimChars s.data with
  | '-' :: ds =>
      if ds ≠ [] ∧ ds.all Char.isDigit then some (-(digitsVal ds : Int)) else none
  | '+' :: ds =>
      if ds ≠ [] ∧ ds.all Char.isDigit then some ((digitsVal ds : Int)) else none
  | ds =>
      if ds ≠ [] ∧ ds.all Char.isDigit then some ((digitsVal ds : Int)) else none

/-! ## `str()` and `repr()` -/

mutual

/-- `repr(v)`.  String quoting is modelled without escape sequences
(no payload below needs them). -/
def pyRepr : PyValue → String
  | .noneV => "None"
  | .bool true => "True"
  | .bool false => "False"
  | .int i => intRepr i
  | .str s => "\x27" ++ s ++ "\x27"
  | .pylist _ es => "[" ++ reprJoin es ++ "]"
  | .secret _ => "SecretStr(\x27***\x27)"
  | .classV c => "<class \x27" ++ c.clsName ++ "\x27>"

/-- `", ".join(repr(e) for e in es)`. -/
def reprJoin : List PyValue → String
  | [] => ""
  | [v] => pyRepr v
  | v :: w :: rest => pyRepr v ++ ", " ++ reprJoin (w :: rest)

end

/-- `str(v)`.  For lists Python falls back to `repr`; `SecretStr.__str__`
returns the fixed mask `"***"` (`types/secret.py`). -/
def pyStr : PyValue → String
  | .noneV => "None"
  | .bool true => "True"
  | .bool false => "False"
  | .int i => intRepr i
  | .str s => s
  | .pylist sub es => pyRepr (.pylist sub es)
  | .secret _ => "***"
  | .classV c => "<class \x27" ++ c.clsName ++ "\x27>"

/-- Python truthiness `bool(v)`. -/
def pyTruthy : PyValue → Bool
  | .noneV => false
  | .bool b => b
  | .int i => i != 0
  | .str s => s != ""
  | .pylist _ es => !es.isEmpty
  | .secret _ => true
  | .classV _ => true

/-! ## `json.dumps` / `json.loads` -/

/-- JSON string escaping for the two characters that matter here. -/
def jsonEscape : List Char → List Char
  | [] => []
  | c :: rest =>
      (if c = '"' then ['\\', '"']
       else if c = '\\' then ['\\', '\\']
       else [c]) ++ jsonEscape rest

mutual

/-- `json.dumps(v)` at the character level; `.error` is the `TypeError`
the `json` module raises on unserializable objects. -/
def jsonDumpsChars : PyValue → Except PyErr (List Char)
  | .noneV => .ok ("null".data)
  | .bool true => .ok ("true".data)
  | .bool false => .ok ("false".data)
  | .int i => .ok (intChars i)
  | .str s => .ok ('"' :: (jsonEscape s.data ++ ['"']))
  | .pylist _ es =>
      match dumpJoin es with
      | .ok body => .ok ('[' :: (body ++ [']']))
      | .error e => .error e
  | .secret _ => .error (.typeError "Object of type SecretStr is not JSON serializable")
  | .classV _ => .error (.typeError "Object of type type is not JSON serializable")

/-- The element encodings joined by `", "` (the default separator of
`json.dumps`). -/
def dumpJoin : List PyValue → Except PyErr (List Char)
  | [] => .ok []
  | [v] => jsonDumpsChars v
  | v :: w :: rest =>
      match jsonDumpsChars v, dumpJoin (w :: rest) with
      | .ok a, .ok b => .ok (a ++ ',' :: ' ' :: b)
      | .error e, _ => .error e
      | _, .error e => .error e

end

/-- `json.dumps(v)` as a string. -/
def jsonDumps (v : PyValue) : Except PyErr String :=
  (jsonDumpsChars v).map String.mk

theorem splitDigits_join (ds : List Char) :
    (splitDigits ds).1 ++ (splitDigits ds).2 = ds := by
  induction ds with
  | nil => rfl
  | cons c rest ih =>
      by_cases hc : c.isDigit
      · simp only [splitDigits, hc, if_pos]
        cases hsd : splitDigits rest with
        | mk a b =>
            rw [hsd] at ih
            simpa using ih
      · simp [splitDigits, hc]

theorem parseDigits_length {ds : List Char} {n : Nat} {r : List Char}
    (h : parseDigits ds = some (n, r)) : r.length < ds.length := by
  have hjoin := splitDigits_join ds
  unfold parseDigits at h
  by_cases hnil : (splitDigits ds).1 = []
  · simp [hnil] at h
  · rw [if_neg hnil] at h
    simp only [Option.some.injEq, Prod.mk.injEq] at h
    have hlen := congrArg List.length hjoin
    simp only [List.length_append] at hlen
    have h1 : 0 < (splitDigits ds).1.length := List.length_pos.mpr hnil
    have h2 : (splitDigits ds).2.length = r.length := by rw [h.2]
    omega

theorem parseSignedInt_length {cs : List Char} {i : Int} {rest : List Char}
    (h : parseSignedInt cs = some (i, rest)) : rest.length < cs.length := by
  unfold parseSignedInt at h
  by_cases hh : cs.head? = some '-'
  · rw [if_pos hh] at h
    cases hpo : parseDigits cs.tail with
    | none => rw [hpo] at h; simp at h
    | some p =>
        rw [hpo] at h
        simp only [Option.map_some', Option.some.injEq] at h
        have hr : p.2 = rest := congrArg Prod.snd h
        have hlt := parseDigits_length hpo
        rw [hr] at hlt
        cases cs with
        | nil => simp at hh
        | cons a b => simp only [List.tail_cons] at hlt; simp; omega
  · rw [if_neg hh] at h
    cases hpo : parseDigits cs with
    | none => rw [hpo] at h; simp at h
    | some p =>
        rw [hpo] at h
        simp only [Option.map_some', Option.some.injEq] at h
        have hr : p.2 = rest := congrArg Prod.snd h
        have hlt := parseDigits_length hpo
        rw [hr] at hlt
        omega

/-- Parse the items of a JSON array of integers, as printed by
`json.dumps` (elements separated by `", "`, closed by `]`), with
explicit fuel; each step consumes at least one character, so
`cs.length` fuel always suffices. -/
def parseItemsF : Nat → List Char → Option (List Int)
  | 0, _ => none
  | fuel + 1, cs =>
      match parseSignedInt cs with
      | none => none
      | some (i, rest) =>
          match rest with
          | [']'] => some [i]
          | ',' :: ' ' :: rest2 => (parseItemsF fuel rest2).map (fun l => i :: l)
          | _ => none

/-- Parse the items of a JSON array of integers. -/
def parseItems (cs : List Char) : Option (List Int) := parseItemsF cs.length cs

/-- Parse a JSON array of integers. -/
def parseIntArray (cs : List Char) : Option (List Int) :=
  match cs with
  | '[' :: rest => if rest = [']'] then some [] else parseItems rest
  | _ => none

/-- Model of `json.loads` restricted to arrays of decimal integers, the
only JSON texts this development feeds it; any other text is treated as
a parse failure (`JSONDecodeError`). -/
def jsonLoadsList (s : String) : Option (List PyValue) :=
  (parseIntArray s.data).map (List.map PyValue.int)

/-! ## `SecretStr` (`types/secret.py`) -/

/-- `SecretStr.__init__`: `self._value = str(value)`. -/
def mkSecretStr (value : PyValue) : PyValue := .secret (pyStr value)

/-- The `SecretStr.value` property: the underlying secret string. -/
def secretValue : PyValue → Option String
  | .secret v => some v
  | _ => none

/-- `SecretStr.__mspec_encode__`: serializes as the underlying string. -/
def secretMspecEncode : PyValue → Option PyValue
  | .secret v => some (.str v)
  | _ => none

/-- `SecretStr.__validate__`: existing instances pass through, strings
are wrapped, anything else is converted with `str()` first. -/
def secretValidate (value : PyValue) (_typ : PyAnnot) : PyValue :=
  match value with
  | .secret v => .secret v
  | .str s => .secret s
  | v => mkSecretStr v

/-! ## Encode hook (`hooks/enc.py`) -/

/-- `getattr(obj, "__encode__", None)`.  No type in the modelled universe
defines an attribute of that name: `SecretStr` names its serializer
`__mspec_encode__`, which this probe does not find. -/
def getEncodeMethod (_obj : PyValue) : Option Empty := none

/-- `_fallback_encode`: `json.dumps(obj)`, falling back to `str(obj)` on
`TypeError`/`ValueError`. -/
def fallbackEncode (obj : PyValue) : Except PyErr PyValue :=
  match jsonDumpsChars obj with
  | .ok cs => .ok (.str (String.mk cs))
  | .error e => if e.isTVE then .ok (.str (pyStr obj)) else .error e

/-- `enc_hook`: call `obj.__encode__()` when present (catching
`TypeError`/`ValueError`), else `_fallback_encode`. -/
def encHook (obj : PyValue) : Except PyErr PyValue :=
  match getEncodeMethod obj with
  | some m => m.elim
  | none => fallbackEncode obj

/-! ## `ListOf` (`types/lists.py`) -/

/-- `ListOf.__class_getitem__`: returns the class itself, discarding the
subscript, so the annotation object `ListOf[T]` is the bare class. -/
def listOfClassGetitem (_item : PyAnnot) : PyAnnot := .cls .listOfC

/-- The runtime annotation object `ListOf[int]`. -/
def listOfIntA : PyAnnot := listOfClassGetitem (.cls .intC)

/-- `typing.get_args`. -/
def getArgs : PyAnnot → List PyAnnot
  | .generic _ args => args
  | .union args => args
  | _ => []

/-- `int(item)` element coercion inside `ListOf.__validate__`; `none`
models the caught `TypeError`/`ValueError`.  (`float` coercion cannot
hit a representable success in this universe, see the header note.) -/
def primCoerce (c : PyClass) (v : PyValue) : Option PyValue :=
  match c with
  | .intC =>
      match v with
      | .int i => some (.int i)
      | .bool b => some (.int (cond b 1 0))
      | .str s => (pyIntOfString s).map PyValue.int
      | _ => none
  | .strC => some (.str (pyStr v))
  | .boolC => some (.bool (pyTruthy v))
  | _ => none

/-- `[inner_type(item) for item in value]`, aborting at the first
failure as a comprehension does. -/
def coerceAll (c : PyClass) (es : List PyValue) : Option (List PyValue) :=
  es.mapM (primCoerce c)

/-- The `isinstance(value, list)` branch of `ListOf.__validate__`:
coerce elementwise when the annotation carries a primitive scalar inner
type, fall back to the unchanged sequence, and wrap in `cls(...)`. -/
def listOfValidateList (es : List PyValue) (typ : PyAnnot) : PyValue :=
  let converted :=
    match getArgs typ with
    | [] => es
    | inner :: _ =>
        match inner with
        | .cls .intC => (coerceAll .intC es).getD es
        | .cls .strC => (coerceAll .strC es).getD es
        | .cls .floatC => (coerceAll .floatC es).getD es
        | .cls .boolC => (coerceAll .boolC es).getD es
        | _ => es
  .pylist true converted

/-- `value.startswith(pre)`. -/
def pyStartsWith (s pre : String) : Bool := List.isPrefixOf pre.data s.data

/-- `value.endswith(suf)`. -/
def pyEndsWith (s suf : String) : Bool := List.isSuffixOf suf.data s.data

/-- `ListOf.__validate__(value, typ)` (`types/lists.py`, lines 23-73).
Existing `ListOf` instances return as-is; plain lists go through the
list branch; strings first try the bracketed-JSON branch, then the
comma-split branch; anything else is returned unchanged. -/
def listOfValidate (value : PyValue) (typ : PyAnnot) : PyValue :=
  match value with
  | .pylist true es => .pylist true es
  | .pylist false es => listOfValidateList es typ
  | .str s =>
      match
        (if pyStartsWith s "[" && pyEndsWith s "]" then
          match jsonLoadsList s with
          | some parsed => some (listOfValidateList parsed typ)
          | none => none
        else none)
      with
      | some r => r
      | none =>
          match splitCommaTrim s with
          | [] => .str s
          | it :: its =>
              let items := it :: its
              match getArgs typ with
              | [] => .pylist true (items.map PyValue.str)
              | inner :: _ =>
                  match inner with
                  | .cls .intC =>
                      match items.mapM (fun x => (pyIntOfString x).map PyValue.int) with
                      | some c => .pylist true c
                      | none => .pylist true (items.map PyValue.str)
                  | .cls .strC => .pylist true (items.map PyValue.str)
                  | _ => .pylist true (items.map PyValue.str)
  | v => v

/-! ## TypeMatcher (`hooks/dec.py`, `isinstance_typed` and helpers) -/

/-- What `typing.get_origin` can return here: a class or `Union`. -/
inductive OriginTag
  | clsO (c : PyClass)
  | unionO
  deriving DecidableEq, Repr

/-- `typing.get_origin`. -/
def getOrigin : PyAnnot → Option OriginTag
  | .cls _ => none
  | .strAnnot _ => none
  | .generic o _ => some (.clsO o)
  | .union _ => some .unionO

/-- `isinstance(value, typ)` for an arbitrary annotation object: raises
`TypeError` when the annotation is not a class (string annotations,
parameterized generics, typing-level unions). -/
def instanceCheck (v : PyValue) (typ : PyAnnot) : Except PyErr Bool :=
  match typ with
  | .cls c => .ok (pyIsInstance v c)
  | .generic _ _ =>
      .error (.typeError "isinstance() argument 2 cannot be a parameterized generic")
  | .union _ =>
      .error (.typeError "typing special forms cannot be used with isinstance()")
  | .strAnnot _ =>
      .error (.typeError "isinstance() arg 2 must be a type")

/-- `typ.__name__` as an attribute access: absent (`AttributeError`) on
string objects and on typing-level unions. -/
def annotNameAttr : PyAnnot → Option String
  | .cls c => some c.clsName
  | .generic o _ => some o.clsName
  | .union _ => none
  | .strAnnot _ => none

/-- `_check_simple_type` (`hooks/dec.py`, lines 51-56): try
`isinstance`; on `TypeError` fall back to
`isinstance(value, type) and type(value).__name__ == typ.__name__`,
whose right operand raises `AttributeError` when the annotation has no
`__name__`. -/
def checkSimpleType (v : PyValue) (typ : PyAnnot) : Except PyErr Bool :=
  match instanceCheck v typ with
  | .ok b => .ok b
  | .error (.typeError _) =>
      if pyIsInstance v .typeC then
        match annotNameAttr typ with
        | some nm => .ok ((PyValue.typeOf v).clsName == nm)
        | none => .error (.attributeError "object has no attribute __name__")
      else .ok false
  | .error e => .error e

mutual

/-- `isinstance_typed` (`hooks/dec.py`, lines 114-143): recursive
structural conformance of a value to an annotation. -/
def isinstanceTyped (v : PyValue) (typ : PyAnnot) : Except PyErr Bool :=
  match typ with
  | .union args => unionAny v args
  | .generic .listC args =>
      match v with
      | .pylist _ es =>
          match args with
          | [] => .ok true
          | t :: _ => listAll es t
      | _ => .ok false
  | .generic .dictC _ => .ok false
  | .generic .tupleC _ => .ok false
  | .generic o _ => .ok (pyIsInstance v o)
  | t => checkSimpleType v t
termination_by (sizeOf typ, 0)

/-- `any(isinstance_typed(value, t) for t in args)` with short-circuit
and error propagation. -/
def unionAny (v : PyValue) (l : List PyAnnot) : Except PyErr Bool :=
  match l with
  | [] => .ok false
  | t :: ts =>
      match isinstanceTyped v t with
      | .ok true => .ok true
      | .ok false => unionAny v ts
      | .error e => .error e
termination_by (sizeOf l, 0)

/-- `all(isinstance_typed(item, item_type) for item in value)`. -/
def listAll (es : List PyValue) (t : PyAnnot) : Except PyErr Bool :=
  match es with
  | [] => .ok true
  | e :: rest =>
      match isinstanceTyped e t with
      | .ok true => listAll rest t
      | .ok false => .ok false
      | .error e2 => .error e2
termination_by (sizeOf t, sizeOf es)

end

/-! ## Decode hook (`hooks/dec.py`, `dec_hook` and helpers) -/

/-- The `_SIMPLE_TYPES` fast-path set. -/
def SIMPLE_TYPES : List PyClass :=
  [.intC, .strC, .floatC, .boolC, .bytesC, .listC, .dictC, .tupleC]

/-- The `__validate__`-capable types: `_get_validate_method` finds the
method directly on `ListOf` / `SecretStr`, or through `__origin__` for
parameterized generics over them. -/
inductive VTag
  | listOfV
  | secretV
  deriving DecidableEq, Repr

/-- `_get_validate_method` (`hooks/dec.py`, lines 7-26). -/
def getValidateMethod : PyAnnot → Option VTag
  | .cls .listOfC => some .listOfV
  | .cls .secretStrC => some .secretV
  | .generic .listOfC _ => some .listOfV
  | .generic .secretStrC _ => some .secretV
  | _ => none

/-- `typ(value)`: direct construction by a class, with the exceptions
the Python constructors raise.  Classes whose values are outside the
modelled universe construct nothing and raise. -/
def construct (c : PyClass) (v : PyValue) : Except PyErr PyValue :=
  match c with
  | .intC =>
      match v with
      | .int i => .ok (.int i)
      | .bool b => .ok (.int (cond b 1 0))
      | .str s =>
          match pyIntOfString s with
          | some i => .ok (.int i)
          | none =>
              .error (.valueError
                ("invalid literal for int() with base 10: " ++ pyRepr (.str s)))
      | w => .error (.typeError
          ("int() argument must be a string or a number, not " ++ (PyValue.typeOf w).clsName))
  | .strC => .ok (.str (pyStr v))
  | .boolC => .ok (.bool (pyTruthy v))
  | .listC =>
      match v with
      | .pylist _ es => .ok (.pylist false es)
      | .str s => .ok (.pylist false (s.data.map (fun ch => .str (String.mk [ch]))))
      | w => .error (.typeError ((PyValue.typeOf w).clsName ++ " object is not iterable"))
  | .listOfC =>
      match v with
      | .pylist _ es => .ok (.pylist true es)
      | .str s => .ok (.pylist true (s.data.map (fun ch => .str (String.mk [ch]))))
      | w => .error (.typeError ((PyValue.typeOf w).clsName ++ " object is not iterable"))
  | .secretStrC => .ok (mkSecretStr v)
  | .typeC => .ok (.classV (PyValue.typeOf v))
  | .noneC => .error (.typeError "NoneType takes no arguments")
  | .floatC => .error (.typeError "float values are outside the modelled universe")
  | .bytesC => .error (.typeError "bytes values are outside the modelled universe")
  | .dictC => .error (.typeError "dict values are outside the modelled universe")
  | .tupleC => .error (.typeError "tuple values are outside the modelled universe")

/-- `str(typ)` for the failure message of `dec_hook`. -/
def annotDisplay : PyAnnot → String
  | .cls c => "<class \x27" ++ c.clsName ++ "\x27>"
  | .generic o _ => o.clsName ++ "[...]"
  | .union _ => "Union"
  | .strAnnot s => "\x27" ++ s ++ "\x27"

/-- `typ(value)` for an arbitrary annotation object: generic aliases
construct through their origin; unions and strings are not callable. -/
def constructA : PyAnnot → PyValue → Except PyErr PyValue
  | .cls c, v => construct c v
  | .generic o _, v => construct o v
  | .union _, _ => .error (.typeError "cannot create instances of a union type")
  | .strAnnot _, _ => .error (.typeError "str object is not callable")

/-- The `validate_method(value, typ)` call of `dec_hook`; both
validators in the package return normally on every universe value. -/
def runValidate (tag : VTag) (value : PyValue) (typ : PyAnnot) : Except PyErr PyValue :=
  match tag with
  | .listOfV => .ok (listOfValidate value typ)
  | .secretV => .ok (secretValidate value typ)

/-- The final `try: return typ(value) except (TypeError, ValueError):
raise TypeError(...)` of `dec_hook`. -/
def decHookFinal (typ : PyAnnot) (value : PyValue) : Except PyErr PyValue :=
  match constructA typ value with
  | .ok r => .ok r
  | .error e =>
      if e.isTVE then
        .error (.typeError
          ("Cannot convert " ++ (PyValue.typeOf value).clsName ++ " to " ++ annotDisplay typ))
      else .error e

/-- The `__validate__` dispatch of `dec_hook`: a raised
`TypeError`/`ValueError` falls through to direct construction. -/
def decHookValidatePath (typ : PyAnnot) (value : PyValue) : Except PyErr PyValue :=
  match getValidateMethod typ with
  | some tag =>
      match runValidate tag value typ with
      | .ok r => .ok r
      | .error e => if e.isTVE then decHookFinal typ value else .error e
  | none => decHookFinal typ value

/-- `dec_hook` (`hooks/dec.py`, lines 150-183). -/
def decHook (typ : PyAnnot) (value : PyValue) : Except PyErr PyValue :=
  match typ with
  | .cls c =>
      if c ∈ SIMPLE_TYPES then construct c value
      else decHookValidatePath (.cls c) value
  | t => decHookValidatePath t value

/-! ## Python dict model

Insertion-ordered association lists over string keys, with the update
semantics of `d[k] = v` (replace in place, else append) and `d.pop(k)`. -/

/-- `k in d` / `d.get(k)`. -/
def dictLookup (d : List (String × PyValue)) (k : String) : Option PyValue :=
  match d with
  | [] => none
  | (k2, v) :: rest => if k2 = k then some v else dictLookup rest k

/-- `d[k] = v`. -/
def dictSet (d : List (String × PyValue)) (k : String) (v : PyValue) :
    List (String × PyValue) :=
  match d with
  | [] => [(k, v)]
  | (k2, w) :: rest => if k2 = k then (k2, v) :: rest else (k2, w) :: dictSet rest k v

/-- `d.pop(k, None)` (the removal; the popped value comes from
`dictLookup`). -/
def dictPop (d : List (String × PyValue)) (k : String) : List (String × PyValue) :=
  match d with
  | [] => []
  | (k2, w) :: rest => if k2 = k then rest else (k2, w) :: dictPop rest k

/-! ## `JSONProvider` (`providers/json_prov.py`) -/

/-- `JSONProvider._normalize_dict_single_pass` (lines 55-72): when the
FIRST key is already lowercase the whole mapping is returned unchanged;
otherwise every key is lowered into a fresh dict. -/
def normalizeDictSinglePass (data : List (String × PyValue)) :
    List (String × PyValue) :=
  match data with
  | [] => data
  | (k0, _) :: _ =>
      if pyIslower k0 then data
      else
        data.foldl
          (fun acc kv =>
            dictSet acc (if pyIslower kv.1 then kv.1 else pyLower kv.1) kv.2)
          []

/-- `JSONProvider.get_value` (lines 74-76): look the lowered key up in
the normalized mapping. -/
def jsonGetValue (data : List (String × PyValue)) (key : String) : Option PyValue :=
  dictLookup (normalizeDictSinglePass data) (pyLower key)

/-! ## `EnvProvider` (`providers/env_prov.py`), default case-insensitive -/

/-- The process-wide snapshot `{k.upper(): v for k, v in os.environ.items()}`. -/
def envCacheOf (env : List (String × String)) : List (String × PyValue) :=
  env.foldl (fun acc kv => dictSet acc (pyUpper kv.1) (.str kv.2)) []

/-- `EnvProvider.get_all` (lines 70-86): the cache re-keyed by
`k.lower()`. -/
def envGetAll (env : List (String × String)) : List (String × PyValue) :=
  (envCacheOf env).foldl (fun acc kv => dictSet acc (pyLower kv.1) kv.2) []

/-! ## Loader (`loader.py`) -/

/-- `_convert_env_value` (lines 11-35).  Non-strings pass through; the
`float` branch lies outside the modelled universe (a parse success is
unrepresentable) and is therefore omitted, which no claim exercises. -/
def convertEnvValue (value : PyValue) (fieldType : PyAnnot) : PyValue :=
  match value with
  | .str s =>
      match fieldType with
      | .cls .boolC => .bool (decide (pyLower s ∈ ["true", "1", "yes", "on"]))
      | .cls .intC =>
          match pyIntOfString s with
          | some i => .int i
          | none => .str s
      | .cls .strC => .str s
      | _ => .str s
  | v => v

/-- A reflected struct field: name, annotation, and default
(`none` models the `msgspec.NODEFAULT` sentinel, so required ⇔ `none`). -/
structure FieldD where
  name : String
  type : PyAnnot
  default : Option PyValue

/-- `get_required_field_names_lower` (`utils.py`). -/
def requiredLower (fields : List FieldD) : List String :=
  (fields.filter (fun f => f.default.isNone)).map (fun f => pyLower f.name)

/-- Modelled from the spec: `msgspec.convert(data, obj, dec_hook=...)`,
the generic convert entry point of the external structured-data library
(spec section 6), which is not part of this repository.  Per field:
take the raw value when present (natively conforming values pass
through, others go through the decode hook), else the default; a
missing required field is a validation error. -/
def msgspecConvert (data : List (String × PyValue)) (fields : List FieldD) :
    Except PyErr (List (String × PyValue)) :=
  fields.mapM (fun f =>
    match dictLookup data f.name with
    | some v =>
        match f.type with
        | .cls c =>
            if pyIsInstance v c then .ok (f.name, v)
            else
              match decHook f.type v with
              | .ok r => .ok (f.name, r)
              | .error e => .error e
        | t =>
            match decHook t v with
            | .ok r => .ok (f.name, r)
            | .error e => .error e
    | none =>
        match f.default with
        | some d => .ok (f.name, d)
        | none => .error (.validationError ("missing required field " ++ f.name)))

/-- One step of the per-field fix-up loop of `load` on the EnvProvider
path (`loader.py`, lines 102-111). -/
def loadEnvStep (d : List (String × PyValue)) (f : FieldD) :
    List (String × PyValue) :=
  let fl := pyLower f.name
  match dictLookup d fl with
  | some v => dictSet (dictPop d fl) f.name (convertEnvValue v f.type)
  | none =>
      match f.default with
      | some dv => dictSet d f.name dv
      | none => dictPop d fl

/-- `load` (`loader.py`, lines 80-130) on the `EnvProvider` batch path:
snapshot via `get_all`, required-field check naming the first missing
field, per-field environment conversion and defaulting, then the
external convert, whose validation failures are wrapped in
`ValueError("Validation failed: ...")`. -/
def loadEnv (fields : List FieldD) (env : List (String × String)) :
    Except PyErr (List (String × PyValue)) :=
  let data := envGetAll env
  let missing := (requiredLower fields).filter (fun r => (dictLookup data r).isNone)
  match missing with
  | m :: _ => .error (.valueError ("Required field \x27" ++ m ++ "\x27 not found"))
  | [] =>
      let data2 := fields.foldl loadEnvStep data
      match msgspecConvert data2 fields with
      | .error (.validationError m) => .error (.valueError ("Validation failed: " ++ m))
      | r => r

/-! ## Substring containment -/

/-- Whether `need` occurs as a contiguous substring of `hay`. -/
def containsSub (need hay : List Char) : Bool :=
  match hay with
  | [] => need.isEmpty
  | _ :: t => need.isPrefixOf hay || containsSub need t

/-- Is the value an instance of the class `ListOf`? -/
def isListOfInst : PyValue → Bool
  | .pylist true _ => true
  | _ => false

/-! ## The claims -/

/-- C1: the claim states `enc_hook(SecretStr(s)) == s` for every string
`s`.  On the code the opposite happens: `enc_hook` probes for an
`__encode__` attribute, `SecretStr` names its serializer
`__mspec_encode__`, so the probe misses, `json.dumps` raises
`TypeError`, and the fallback returns `str(obj)`, which is the fixed
mask `"***"` — never the underlying value (here checked against
`"hunter2"`). -/
theorem enc_hook_secretstr_emits_mask :
    (∀ s : String, encHook (.secret s) = .ok (.str "***")) ∧
    encHook (.secret "hunter2") ≠ .ok (.str "hunter2") := by
  refine ⟨fun s => rfl, fun h => ?_⟩
  injection h with h1
  injection h1 with h2
  exact absurd h2 (by decide)

/-- C2: the claim states
`ListOf.__validate__("1, 2, 3", ListOf[int]) == [1, 2, 3]`.  On the
code, `ListOf.__class_getitem__` returns the bare class, so
`typing.get_args(ListOf[int])` is empty, the `int`-coercion branch is
never reached, and the pieces stay strings. -/
theorem listof_validate_comma_string_stays_strings :
    listOfValidate (.str "1, 2, 3") listOfIntA =
      .pylist true [.str "1", .str "2", .str "3"] := rfl

/-- C3: the claim states
`ListOf[int].__validate__("", ListOf[int]) == []`.  On the code the
empty string produces zero pieces, the `if items:` guard skips the
list-building return, and line 73 returns the string `""` unchanged —
not an empty sequence. -/
theorem listof_validate_empty_string_returns_empty_string :
    listOfValidate (.str "") listOfIntA = .str "" := rfl

/-- C4: the claim states that `JSONProvider` lowercases every top-level
key, making `get_value` case-insensitive.  On the code,
`_normalize_dict_single_pass` returns the mapping unchanged whenever
the FIRST key is lowercase, so a later mixed-case key (here `"NAME"`)
is never normalized and no casing of it can be looked up, although the
value is present in the raw mapping. -/
theorem json_provider_skips_normalization :
    jsonGetValue [("a", .int 1), ("NAME", .str "svc")] "NAME" = none ∧
    jsonGetValue [("a", .int 1), ("NAME", .str "svc")] "name" = none ∧
    dictLookup [("a", PyValue.int 1), ("NAME", PyValue.str "svc")] "NAME" =
      some (.str "svc") :=
  ⟨rfl, rfl, rfl⟩

/-- The two demo fields of C6: `name : str` (required),
`retries : int = 3`. -/
def demoFields : List FieldD :=
  [⟨"name", .cls .strC, none⟩, ⟨"retries", .cls .intC, some (.int 3)⟩]

/-- C6: loading `{name: str required, retries: int = 3}` from an
environment supplying only `NAME=svc` yields
`{name: "svc", retries: 3}`, and loading with `NAME` absent fails with
an error naming exactly the missing required field `name`. -/
theorem load_name_retries :
    loadEnv demoFields [("NAME", "svc")] =
      .ok [("name", .str "svc"), ("retries", .int 3)] ∧
    loadEnv demoFields [] =
      .error (.valueError "Required field \x27name\x27 not found") :=
  ⟨rfl, rfl⟩

/-- C7: for every string `s` not occurring in either fixed mask, the
default string conversion of `SecretStr(s)` is the constant `"***"`,
its structural printing is the constant `"SecretStr('***')"`, neither
contains `s`, and the explicit `.value` accessor returns exactly `s`. -/
theorem secretstr_display_masked (s : String)
    (h1 : containsSub s.data ("***".data) = false)
    (h2 : containsSub s.data ("SecretStr(\x27***\x27)".data) = false) :
    pyStr (mkSecretStr (.str s)) = "***" ∧
    containsSub s.data (pyStr (mkSecretStr (.str s))).data = false ∧
    pyRepr (mkSecretStr (.str s)) = "SecretStr(\x27***\x27)" ∧
    containsSub s.data (pyRepr (mkSecretStr (.str s))).data = false ∧
    secretValue (mkSecretStr (.str s)) = some s :=
  ⟨rfl, h1, rfl, h2, rfl⟩

/-- Witness for C7 at `s = "hunter2"`. -/
theorem secretstr_display_masked_witness :
    containsSub ("hunter2".data) ("***".data) = false ∧
    containsSub ("hunter2".data) ("SecretStr(\x27***\x27)".data) = false ∧
    (pyStr (mkSecretStr (.str "hunter2")) = "***" ∧
      containsSub ("hunter2".data) (pyStr (mkSecretStr (.str "hunter2"))).data = false ∧
      pyRepr (mkSecretStr (.str "hunter2")) = "SecretStr(\x27***\x27)" ∧
      containsSub ("hunter2".data) (pyRepr (mkSecretStr (.str "hunter2"))).data = false ∧
      secretValue (mkSecretStr (.str "hunter2")) = some "hunter2") :=
  ⟨by decide, by decide,
    secretstr_display_masked "hunter2" (by decide) (by decide)⟩

/-- C8 counterexample: the claim states that for annotations with no
generic origin `isinstance_typed` never propagates an error.  With the
class object `int` as the value and the string annotation `"int"`
(origin-free), the `TypeError` fallback of `_check_simple_type`
evaluates `typ.__name__` on a string object, which raises
`AttributeError`, and `isinstance_typed` propagates it. -/
theorem isinstance_typed_propagates_attribute_error :
    getOrigin (.strAnnot "int") = none ∧
    isinstanceTyped (.classV .intC) (.strAnnot "int") =
      .error (.attributeError "object has no attribute __name__") := by
  refine ⟨rfl, ?_⟩
  unfold isinstanceTyped
  rfl

/-- C8 as amended: for annotations with no generic origin,
`isinstance_typed` propagates no error **provided the value is not
itself a class object**, and when the direct `isinstance` check fails
with a `TypeError` it returns `false`; for class-object values the
fallback compares the metaclass name with `typ.__name__`, which itself
raises when the annotation has no `__name__`. -/
theorem isinstance_typed_no_error_for_nonclass (v : PyValue) (typ : PyAnnot)
    (ho : getOrigin typ = none) (hv : pyIsInstance v .typeC = false) :
    (∃ b, isinstanceTyped v typ = .ok b) ∧
    (∀ m, instanceCheck v typ = .error (.typeError m) →
      isinstanceTyped v typ = .ok false) := by
  cases typ with
  | cls c =>
      constructor
      · exact ⟨pyIsInstance v c, by unfold isinstanceTyped; rfl⟩
      · intro m hm
        simp [instanceCheck] at hm
  | strAnnot s =>
      constructor
      · refine ⟨false, ?_⟩
        unfold isinstanceTyped
        simp [checkSimpleType, instanceCheck, hv]
      · intro m _
        unfold isinstanceTyped
        simp [checkSimpleType, instanceCheck, hv]
  | generic o args => simp [getOrigin] at ho
  | union args => simp [getOrigin] at ho

/-- Witness for the amended C8 at a non-class value and an origin-free
annotation. -/
theorem isinstance_typed_no_error_for_nonclass_witness :
    getOrigin (.strAnnot "int") = none ∧
    pyIsInstance (.str "x") .typeC = false ∧
    ((∃ b, isinstanceTyped (.str "x") (.strAnnot "int") = .ok b) ∧
      (∀ m, instanceCheck (.str "x") (.strAnnot "int") = .error (.typeError m) →
        isinstanceTyped (.str "x") (.strAnnot "int") = .ok false)) :=
  ⟨rfl, rfl, isinstance_typed_no_error_for_nonclass (.str "x") (.strAnnot "int") rfl rfl⟩

/-- C10: `ListOf.__validate__` returns existing `ListOf` instances
as-is (lines 30-32), hence validating a second time changes nothing for
every value whose validation result is a `ListOf` instance. -/
theorem listof_validate_idempotent (v : PyValue) (t : PyAnnot) :
    (isListOfInst v = true → listOfValidate v t = v) ∧
    (isListOfInst (listOfValidate v t) = true →
      listOfValidate (listOfValidate v t) t = listOfValidate v t) := by
  have pass : ∀ w : PyValue, isListOfInst w = true → listOfValidate w t = w := by
    intro w hw
    cases w with
    | pylist sub es =>
        cases sub with
        | true => rfl
        | false => simp [isListOfInst] at hw
    | noneV => simp [isListOfInst] at hw
    | bool b => simp [isListOfInst] at hw
    | int i => simp [isListOfInst] at hw
    | str s => simp [isListOfInst] at hw
    | secret s => simp [isListOfInst] at hw
    | classV c => simp [isListOfInst] at hw
  exact ⟨pass v, pass (listOfValidate v t)⟩

/-- Witness for C10: a comma string validates to a `ListOf`, and
re-validating it is the identity; an existing `ListOf` passes through
unchanged. -/
theorem listof_validate_idempotent_witness :
    isListOfInst (listOfValidate (.str "1,2") listOfIntA) = true ∧
    listOfValidate (listOfValidate (.str "1,2") listOfIntA) listOfIntA =
      listOfValidate (.str "1,2") listOfIntA ∧
    isListOfInst (.pylist true [.int 1]) = true ∧
    listOfValidate (.pylist true [.int 1]) listOfIntA = .pylist true [.int 1] :=
  ⟨rfl,
    (listof_validate_idempotent (.str "1,2") listOfIntA).2 rfl,
    rfl,
    (listof_validate_idempotent (.pylist true [.int 1]) listOfIntA).1 rfl⟩

/-- Every error the modelled `json.dumps` raises is a `TypeError`, the
kind `_fallback_encode` catches. -/
theorem jsonDumps_err_tve :
    ∀ n : Nat,
      (∀ v : PyValue, sizeOf v ≤ n → ∀ e, jsonDumpsChars v = .error e → e.isTVE = true) ∧
      (∀ es : List PyValue, sizeOf es ≤ n → ∀ e, dumpJoin es = .error e → e.isTVE = true) := by
  intro n
  induction n using Nat.strong_induction_on with
  | _ n ih =>
      constructor
      · intro v hv e he
        cases v with
        | noneV => simp [jsonDumpsChars] at he
        | bool b => cases b <;> simp [jsonDumpsChars] at he
        | int i => simp [jsonDumpsChars] at he
        | str s => simp [jsonDumpsChars] at he
        | secret w =>
            simp [jsonDumpsChars] at he
            rw [← he]
            rfl
        | classV c =>
            simp [jsonDumpsChars] at he
            rw [← he]
            rfl
        | pylist sub es =>
            cases hd : dumpJoin es with
            | ok body => simp [jsonDumpsChars, hd] at he
            | error e2 =>
                have hsz : sizeOf es < n := by
                  have hlt : sizeOf es < sizeOf (PyValue.pylist sub es) := by
                    simp <;> omega
                  omega
                have htve := (ih (sizeOf es) hsz).2 es le_rfl e2 hd
                simp [jsonDumpsChars, hd] at he
                rw [← he]
                exact htve
      · intro es hes e he
        cases es with
        | nil => simp [dumpJoin] at he
        | cons v tl =>
            cases tl with
            | nil =>
                simp [dumpJoin] at he
                have hsz : sizeOf v < n := by
                  have hlt : sizeOf v < sizeOf [v] := by
                    simp <;> omega
                  omega
                exact (ih (sizeOf v) hsz).1 v le_rfl e he
            | cons w rest =>
                cases h1 : jsonDumpsChars v with
                | error e1 =>
                    have hsz : sizeOf v < n := by
                      have hlt : sizeOf v < sizeOf (v :: w :: rest) := by
                        simp <;> omega
                      omega
                    have htve := (ih (sizeOf v) hsz).1 v le_rfl e1 h1
                    simp [dumpJoin, h1] at he
                    rw [← he]
                    exact htve
                | ok a =>
                    cases h2 : dumpJoin (w :: rest) with
                    | ok b => simp [dumpJoin, h1, h2] at he
                    | error e2 =>
                        have hsz : sizeOf (w :: rest) < n := by
                          have hlt : sizeOf (w :: rest) < sizeOf (v :: w :: rest) := by
                            simp <;> omega
                          omega
                        have htve := (ih (sizeOf (w :: rest)) hsz).2 (w :: rest) le_rfl e2 h2
                        simp [dumpJoin, h1, h2] at he
                        rw [← he]
                        exact htve

/-- C5: `enc_hook` returns normally on every value of the universe: the
probe for `__encode__` cannot raise, `json.dumps` failures are all
`TypeError`s and are caught, and the final `str(obj)` always succeeds,
so the worst case is a lossy string. -/
theorem enc_hook_total (obj : PyValue) : ∃ r, encHook obj = .ok r := by
  show ∃ r, fallbackEncode obj = .ok r
  unfold fallbackEncode
  cases h : jsonDumpsChars obj with
  | ok cs => exact ⟨_, rfl⟩
  | error e =>
      have htve := (jsonDumps_err_tve (sizeOf obj)).1 obj le_rfl e h
      refine ⟨.str (pyStr obj), ?_⟩
      simp [htve]

/-! ## Round-trip lemmas for JSON integer arrays -/

theorem chDigitVal_digitCh {d : Nat} (h : d < 10) : chDigitVal (digitCh d) = d := by
  interval_cases d <;> decide

theorem digitCh_isDigit {d : Nat} (h : d < 10) : (digitCh d).isDigit = true := by
  interval_cases d <;> decide

theorem natChars_all_digit (n : Nat) : ∀ c ∈ natChars n, c.isDigit = true := by
  intro c hc
  unfold natChars at hc
  by_cases h0 : n = 0
  · simp [h0] at hc
    subst hc
    decide
  · simp only [h0, ite_false, List.mem_reverse, List.mem_map] at hc
    obtain ⟨d, hd, rfl⟩ := hc
    exact digitCh_isDigit (Nat.digits_lt_base (by norm_num) hd)

theorem natChars_ne_nil (n : Nat) : natChars n ≠ [] := by
  unfold natChars
  by_cases h0 : n = 0
  · simp [h0]
  · simp only [h0, ite_false]
    intro hcon
    have hd : Nat.digits 10 n ≠ [] := Nat.digits_ne_nil_iff_ne_zero.mpr h0
    simp at hcon
    exact hd hcon

theorem digitsVal_natChars (n : Nat) : digitsVal (natChars n) = n := by
  by_cases h0 : n = 0
  · subst h0
    decide
  · unfold digitsVal natChars
    simp only [h0, ite_false]
    rw [List.map_reverse, List.reverse_reverse, List.map_map]
    have hmap : (Nat.digits 10 n).map (chDigitVal ∘ digitCh) = Nat.digits 10 n := by
      have hcg : ∀ d ∈ Nat.digits 10 n, (chDigitVal ∘ digitCh) d = d := fun d hd =>
        chDigitVal_digitCh (Nat.digits_lt_base (by norm_num) hd)
      rw [List.map_congr_left hcg]
      simp
    rw [hmap, Nat.ofDigits_digits]

theorem intChars_ne_nil (i : Int) : intChars i ≠ [] := by
  unfold intChars
  by_cases h : i < 0 <;> simp [h, natChars_ne_nil]

theorem splitDigits_all {ds rest : List Char}
    (hd : ∀ c ∈ ds, c.isDigit = true)
    (hr : ∀ c cs2, rest = c :: cs2 → c.isDigit = false) :
    splitDigits (ds ++ rest) = (ds, rest) := by
  induction ds with
  | nil =>
      simp only [List.nil_append]
      cases rest with
      | nil => rfl
      | cons c cs2 =>
          have hc := hr c cs2 rfl
          simp [splitDigits, hc]
  | cons d ds2 ih =>
      have hdd : d.isDigit = true := hd d (by simp)
      have ih2 := ih (fun c hc => hd c (by simp [hc]))
      show splitDigits (d :: (ds2 ++ rest)) = (d :: ds2, rest)
      simp only [splitDigits, hdd, ite_true]
      rw [ih2]

theorem parseDigits_natChars (n : Nat) {rest : List Char}
    (hr : ∀ c cs2, rest = c :: cs2 → c.isDigit = false) :
    parseDigits (natChars n ++ rest) = some (n, rest) := by
  have hsp := splitDigits_all (natChars_all_digit n) hr
  unfold parseDigits
  rw [hsp]
  simp [natChars_ne_nil n, digitsVal_natChars n]

theorem parseSignedInt_intChars (i : Int) {rest : List Char}
    (hr : ∀ c cs2, rest = c :: cs2 → c.isDigit = false) :
    parseSignedInt (intChars i ++ rest) = some (i, rest) := by
  unfold parseSignedInt intChars
  by_cases hi : i < 0
  · simp only [hi, ite_true, List.cons_append, List.head?_cons, List.tail_cons,
      reduceIte]
    rw [parseDigits_natChars i.natAbs hr]
    simp only [Option.map_some', Option.some.injEq, Prod.mk.injEq]
    exact ⟨by omega, trivial⟩
  · simp only [hi, ite_false]
    have hne := natChars_ne_nil i.toNat
    have hcond : (natChars i.toNat ++ rest).head? ≠ some '-' := by
      cases hnc : natChars i.toNat with
      | nil => exact absurd hnc hne
      | cons c cs2 =>
          have hdg : c.isDigit = true := natChars_all_digit i.toNat c (by rw [hnc]; simp)
          simp only [hnc, List.cons_append, List.head?_cons, ne_eq, Option.some.injEq]
          intro hcc
          rw [hcc] at hdg
          exact absurd hdg (by decide)
    rw [if_neg hcond]
    rw [parseDigits_natChars i.toNat hr]
    simp only [Option.map_some', Option.some.injEq, Prod.mk.injEq]
    exact ⟨by omega, trivial⟩

theorem jsonDumpsChars_int (i : Int) : jsonDumpsChars (.int i) = .ok (intChars i) := rfl

theorem dumpJoin_nil : dumpJoin [] = .ok [] := rfl

theorem dumpJoin_one (x : PyValue) : dumpJoin [x] = jsonDumpsChars x := rfl

theorem dumpJoin_cons2 (x y : PyValue) (l : List PyValue) :
    dumpJoin (x :: y :: l) =
      (match jsonDumpsChars x, dumpJoin (y :: l) with
        | .ok a, .ok b => .ok (a ++ ',' :: ' ' :: b)
        | .error e, _ => .error e
        | _, .error e => .error e) := rfl

theorem dumpJoin_int_ok (v : List Int) :
    ∃ cs, dumpJoin (v.map PyValue.int) = .ok cs := by
  induction v with
  | nil => exact ⟨[], rfl⟩
  | cons i tl ih =>
      cases tl with
      | nil => exact ⟨intChars i, rfl⟩
      | cons j tl2 =>
          obtain ⟨cs, hcs⟩ := ih
          refine ⟨intChars i ++ ',' :: ' ' :: cs, ?_⟩
          simp only [List.map_cons] at hcs ⊢
          rw [dumpJoin_cons2, jsonDumpsChars_int, hcs]

theorem parseItemsF_round (v : List Int) (hv : v ≠ []) :
    ∀ (cs : List Char) (fuel : Nat), dumpJoin (v.map PyValue.int) = .ok cs →
      (cs ++ [']']).length ≤ fuel → parseItemsF fuel (cs ++ [']']) = some v := by
  induction v with
  | nil => exact absurd rfl hv
  | cons i tl ih =>
      intro cs fuel hcs hfuel
      cases tl with
      | nil =>
          rw [List.map_cons, List.map_nil, dumpJoin_one, jsonDumpsChars_int] at hcs
          injection hcs with h1
          subst h1
          have hnd : ∀ c cs2, ([']'] : List Char) = c :: cs2 → c.isDigit = false := by
            intro c cs2 hcc
            injection hcc with h1 _
            rw [← h1]
            decide
          have hps := parseSignedInt_intChars i hnd
          cases fuel with
          | zero => simp at hfuel
          | succ f => simp [parseItemsF, hps]
      | cons j tl2 =>
          rw [List.map_cons, List.map_cons, dumpJoin_cons2, jsonDumpsChars_int] at hcs
          cases hdj : dumpJoin (PyValue.int j :: List.map PyValue.int tl2) with
          | error e =>
              rw [hdj] at hcs
              exact Except.noConfusion hcs
          | ok cs2 =>
              rw [hdj] at hcs
              injection hcs with h1
              subst h1
              have hnd : ∀ c cs3, (',' :: ' ' :: (cs2 ++ [']'])) = c :: cs3 → c.isDigit = false := by
                intro c cs3 hcc
                injection hcc with h1 _
                rw [← h1]
                decide
              have hps := parseSignedInt_intChars i hnd
              have hassoc : (intChars i ++ ',' :: ' ' :: cs2) ++ [']'] =
                  intChars i ++ (',' :: ' ' :: (cs2 ++ [']'])) := by simp
              rw [hassoc]
              have hic : 1 ≤ (intChars i).length := by
                cases hi0 : intChars i with
                | nil => exact absurd hi0 (intChars_ne_nil i)
                | cons a b => simp
              cases fuel with
              | zero => simp at hfuel
              | succ f =>
                  have hfl : (cs2 ++ [']']).length ≤ f := by
                    rw [hassoc] at hfuel
                    simp at hfuel ⊢
                    omega
                  have ihh := ih (by simp) cs2 f (by rw [List.map_cons]; exact hdj) hfl
                  simp [parseItemsF, hps, ihh]

theorem parseIntArray_round (v : List Int) (cs : List Char)
    (h : dumpJoin (v.map PyValue.int) = .ok cs) :
    parseIntArray ('[' :: (cs ++ [']'])) = some v := by
  cases v with
  | nil =>
      rw [List.map_nil, dumpJoin_nil] at h
      injection h with h1
      subst h1
      rfl
  | cons i tl =>
      have hne : cs ≠ [] := by
        cases tl with
        | nil =>
            rw [List.map_cons, List.map_nil, dumpJoin_one, jsonDumpsChars_int] at h
            injection h with h1
            rw [← h1]
            exact intChars_ne_nil i
        | cons j tl2 =>
            rw [List.map_cons, List.map_cons, dumpJoin_cons2, jsonDumpsChars_int] at h
            cases hdj : dumpJoin (PyValue.int j :: List.map PyValue.int tl2) with
            | error e =>
                rw [hdj] at h
                exact Except.noConfusion h
            | ok cs2 =>
                rw [hdj] at h
                injection h with h1
                rw [← h1]
                simp
      simp only [parseIntArray]
      have hrestne : ¬ (cs ++ [']'] = [']']) := by
        intro hcc
        apply hne
        have hlen := congrArg List.length hcc
        simp at hlen
        exact hlen
      rw [if_neg hrestne]
      show parseItemsF (cs ++ [']']).length (cs ++ [']']) = some (i :: tl)
      exact parseItemsF_round (i :: tl) (by simp) cs (cs ++ [']']).length h le_rfl

theorem jsonDumpsChars_pylist (sub : Bool) (es : List PyValue) :
    jsonDumpsChars (.pylist sub es) =
      (match dumpJoin es with
        | .ok body => .ok ('[' :: (body ++ [']']))
        | .error e => .error e) := rfl

/-- C9: encoding a `ListOf` of integers with `enc_hook` (which falls
back to `json.dumps`, producing the text `"[i1, i2, ...]"`) and
decoding it with `dec_hook` at the annotation `ListOf[int]` (which
dispatches to `ListOf.__validate__`, whose bracket branch parses the
JSON array back) returns an equal ordered sequence of integers, for
every integer list. -/
theorem listof_int_roundtrip (v : List Int) :
    (encHook (.pylist true (v.map PyValue.int))).bind (decHook listOfIntA) =
      .ok (.pylist true (v.map PyValue.int)) := by
  obtain ⟨cs, hcs⟩ := dumpJoin_int_ok v
  have henc : encHook (.pylist true (v.map PyValue.int)) =
      .ok (.str (String.mk ('[' :: (cs ++ [']'])))) := by
    show fallbackEncode (.pylist true (v.map PyValue.int)) = _
    unfold fallbackEncode
    rw [jsonDumpsChars_pylist, hcs]
  rw [henc]
  show decHook listOfIntA (.str (String.mk ('[' :: (cs ++ [']'])))) =
    .ok (.pylist true (v.map PyValue.int))
  have hval : listOfValidate (.str (String.mk ('[' :: (cs ++ [']'])))) (.cls .listOfC) =
      .pylist true (v.map PyValue.int) := by
    have hsw : pyStartsWith (String.mk ('[' :: (cs ++ [']']))) "[" = true := by
      simp [pyStartsWith, List.isPrefixOf]
    have hew : pyEndsWith (String.mk ('[' :: (cs ++ [']']))) "]" = true := by
      simp [pyEndsWith, List.isSuffixOf, List.isPrefixOf]
    have hload : jsonLoadsList (String.mk ('[' :: (cs ++ [']']))) =
        some (List.map PyValue.int v) := by
      unfold jsonLoadsList
      show (parseIntArray ('[' :: (cs ++ [']']))).map (List.map PyValue.int) = _
      rw [parseIntArray_round v cs hcs]
      rfl
    simp [listOfValidate, hsw, hew, hload, listOfValidateList, getArgs]
  calc decHook listOfIntA (.str (String.mk ('[' :: (cs ++ [']'])))) =
      .ok (listOfValidate (.str (String.mk ('[' :: (cs ++ [']'])))) (.cls .listOfC)) := rfl
    _ = .ok (.pylist true (v.map PyValue.int)) := by rw [hval]
